import Mathlib

/- Verification development for the squat-HMM training pipeline
   (`iOSdemo/HMM/train_squat.py`).  The Python source is shallowly embedded:
   numpy floats become real numbers, exact rational arithmetic is used where
   the computation is rational, lists model numpy arrays, and the `main`
   pipeline after the video forward pass becomes a pure function from the
   collected corpus to `Except String ModelParams`. -/

namespace TrainSquat

/-! ## Rep Segmenter (`segment_reps`)

The Python function scans the label sequence with nested `while` loops.
Each inner `while i < n and pred(frame_states[i]): i += 1` loop is embedded
as `scanWhile`: the cursor advances past the maximal prefix (from position
`i`) of elements satisfying the predicate.  The outer loop is embedded with
a fuel parameter; `l.length` units of fuel are always sufficient because
every iteration that does not break advances the cursor by at least two. -/

def scanWhile (l : List ℕ) (p : ℕ → Bool) (i : ℕ) : ℕ :=
  i + ((l.drop i).takeWhile p).length

def segRepsAux (l : List ℕ) : ℕ → ℕ → List (ℕ × ℕ)
  | 0, _ => []
  | fuel + 1, i =>
    if i < l.length - 1 then
      -- find UP
      let i1 := scanWhile l (fun x => x != 0) i
      if l.length - 1 ≤ i1 then []
      else
        -- find DOWN after UP (consume the extended run)
        let i2 := scanWhile l (fun x => x == 0) i1
        if l.length ≤ i2 then []
        else
          -- consume the flexed run; `saw_down` iff the cursor moved
          let i3 := scanWhile l (fun x => x == 1) i2
          if i3 ≤ i2 then []
          else if l.length ≤ i3 then []
          else (i1, i3) :: segRepsAux l fuel i3
    else []

def segment_reps (l : List ℕ) : List (ℕ × ℕ) :=
  segRepsAux l l.length 0

/-! ## Transition Fitter (`fit_transitions`)

Laplace-smoothed 2×2 transition matrix.  The float arithmetic is embedded
as exact rational arithmetic. -/

def transCounts (state_seq : List (Fin 2)) (a b : Fin 2) : ℚ :=
  1 + ((state_seq.zip state_seq.tail).filter (fun p => p.1 == a && p.2 == b)).length

def fit_transitions (state_seq : List (Fin 2)) : Fin 2 → Fin 2 → ℚ :=
  fun a b =>
    transCounts state_seq a b / (transCounts state_seq a 0 + transCounts state_seq a 1)

/-! ## Prior Fitter (`fit_prior`) -/

def fit_prior (first_state : Fin 2) : Fin 2 → ℚ :=
  fun s => (if s = first_state then 1 else 1e-6) / (1 + 1e-6)

/-! ## Emission Fitter (`fit_gaussians`)

`np.mean` / `np.std` (population standard deviation, `ddof = 0`) along
axis 0, with the standard deviations floored at `1e-6`.  A feature vector
is embedded as a function `Fin 16 → ℝ`. -/

noncomputable def npMean (xs : List ℝ) : ℝ := xs.sum / xs.length

noncomputable def npStd (xs : List ℝ) : ℝ :=
  Real.sqrt ((xs.map (fun x => (x - npMean xs) ^ 2)).sum / xs.length)

noncomputable def fit_gaussians (features_per_state : Fin 2 → List (Fin 16 → ℝ)) :
    (Fin 2 → Fin 16 → ℝ) × (Fin 2 → Fin 16 → ℝ) :=
  (fun s d => npMean ((features_per_state s).map (fun v => v d)),
   fun s d =>
     let sd := npStd ((features_per_state s).map (fun v => v d))
     if sd < 1e-6 then 1e-6 else sd)

/-! ## Viterbi Decoder (`viterbi_loglik`)

`np.argmax` over the two candidate scores returns the first index attaining
the maximum, so index 0 wins ties.  `vitDP t s` is `dp[t, s]`,
`vitBack t s` is `back[t, s]` (row 0 of `back` is never read by the
backtrace), and `vitState T k` is the decoded state at time `T - 1 - k`,
following the backtrace from the final argmax. -/

noncomputable def argmax2 (c : Fin 2 → ℝ) : Fin 2 :=
  if c 0 < c 1 then 1 else 0

noncomputable def log_emit (seq : List (Fin 16 → ℝ)) (means stds : Fin 2 → Fin 16 → ℝ)
    (t : ℕ) (s : Fin 2) : ℝ :=
  (∑ d : Fin 16, -(0.5) * Real.log (2 * Real.pi * (stds s d * stds s d)))
    - ∑ d : Fin 16,
        (seq.getD t (fun _ => 0) d - means s d) * (seq.getD t (fun _ => 0) d - means s d)
          / (2 * (stds s d * stds s d))

noncomputable def vitDP (seq : List (Fin 16 → ℝ)) (lgp : Fin 2 → ℝ)
    (lgt : Fin 2 → Fin 2 → ℝ) (means stds : Fin 2 → Fin 16 → ℝ) : ℕ → Fin 2 → ℝ
  | 0, s => lgp s + log_emit seq means stds 0 s
  | t + 1, s =>
    (fun p => vitDP seq lgp lgt means stds t p + lgt p s)
        (argmax2 (fun p => vitDP seq lgp lgt means stds t p + lgt p s))
      + log_emit seq means stds (t + 1) s

noncomputable def vitBack (seq : List (Fin 16 → ℝ)) (lgp : Fin 2 → ℝ)
    (lgt : Fin 2 → Fin 2 → ℝ) (means stds : Fin 2 → Fin 16 → ℝ) : ℕ → Fin 2 → Fin 2
  | 0, _ => 0
  | t + 1, s => argmax2 (fun p => vitDP seq lgp lgt means stds t p + lgt p s)

noncomputable def vitState (seq : List (Fin 16 → ℝ)) (lgp : Fin 2 → ℝ)
    (lgt : Fin 2 → Fin 2 → ℝ) (means stds : Fin 2 → Fin 16 → ℝ) (T : ℕ) : ℕ → Fin 2
  | 0 => argmax2 (vitDP seq lgp lgt means stds (T - 1))
  | k + 1 => vitBack seq lgp lgt means stds (T - 1 - k)
      (vitState seq lgp lgt means stds T k)

noncomputable def viterbi_loglik (seq : List (Fin 16 → ℝ)) (lgp : Fin 2 → ℝ)
    (lgt : Fin 2 → Fin 2 → ℝ) (means stds : Fin 2 → Fin 16 → ℝ) :
    List (Fin 2) × ℝ :=
  let T := seq.length
  ((List.range T).map (fun t => vitState seq lgp lgt means stds T (T - 1 - t)),
   vitDP seq lgp lgt means stds (T - 1)
     (argmax2 (vitDP seq lgp lgt means stds (T - 1))))

/-! ## Feature Normalizer (`extract_feature_vector`)

Landmarks carry 2D coordinates and a visibility score; `math.hypot` is the
Euclidean distance.  The output vector (when produced) lists the normalized
coordinates of the eight joints in source order. -/

structure Landmark where
  x : ℝ
  y : ℝ
  visibility : ℝ

inductive Joint
  | leftShoulder | rightShoulder | leftHip | rightHip
  | leftKnee | rightKnee | leftAnkle | rightAnkle
deriving DecidableEq

def pt (L : Joint → Landmark) (j : Joint) : ℝ × ℝ := ((L j).x, (L j).y)

noncomputable def hip_center (L : Joint → Landmark) : ℝ × ℝ :=
  (((pt L .leftHip).1 + (pt L .rightHip).1) / 2,
   ((pt L .leftHip).2 + (pt L .rightHip).2) / 2)

noncomputable def shoulder_center (L : Joint → Landmark) : ℝ × ℝ :=
  (((pt L .leftShoulder).1 + (pt L .rightShoulder).1) / 2,
   ((pt L .leftShoulder).2 + (pt L .rightShoulder).2) / 2)

noncomputable def dist (a b : ℝ × ℝ) : ℝ :=
  Real.sqrt ((a.1 - b.1) ^ 2 + (a.2 - b.2) ^ 2)

noncomputable def shScale (L : Joint → Landmark) : ℝ :=
  dist (hip_center L) (shoulder_center L)

noncomputable def hipDist (L : Joint → Landmark) : ℝ :=
  dist (pt L .leftHip) (pt L .rightHip)

noncomputable def norm_pt (L : Joint → Landmark) (scale : ℝ) (p : ℝ × ℝ) : ℝ × ℝ :=
  ((p.1 - (hip_center L).1) / scale, (p.2 - (hip_center L).2) / scale)

noncomputable def featVec (L : Joint → Landmark) (scale : ℝ) : Fin 16 → ℝ :=
  ![(norm_pt L scale (pt L .leftShoulder)).1, (norm_pt L scale (pt L .leftShoulder)).2,
    (norm_pt L scale (pt L .rightShoulder)).1, (norm_pt L scale (pt L .rightShoulder)).2,
    (norm_pt L scale (pt L .leftHip)).1, (norm_pt L scale (pt L .leftHip)).2,
    (norm_pt L scale (pt L .rightHip)).1, (norm_pt L scale (pt L .rightHip)).2,
    (norm_pt L scale (pt L .leftKnee)).1, (norm_pt L scale (pt L .leftKnee)).2,
    (norm_pt L scale (pt L .rightKnee)).1, (norm_pt L scale (pt L .rightKnee)).2,
    (norm_pt L scale (pt L .leftAnkle)).1, (norm_pt L scale (pt L .leftAnkle)).2,
    (norm_pt L scale (pt L .rightAnkle)).1, (norm_pt L scale (pt L .rightAnkle)).2]

noncomputable def extract_feature_vector (L : Joint → Landmark) : Option (Fin 16 → ℝ) :=
  if (L .leftShoulder).visibility < 0.3 ∨ (L .rightShoulder).visibility < 0.3 ∨
      (L .leftHip).visibility < 0.3 ∨ (L .rightHip).visibility < 0.3 ∨
      (L .leftKnee).visibility < 0.3 ∨ (L .rightKnee).visibility < 0.3 ∨
      (L .leftAnkle).visibility < 0.3 ∨ (L .rightAnkle).visibility < 0.3 then
    none
  else if shScale L < 1e-3 then
    if hipDist L < 1e-3 then none
    else some (featVec L (hipDist L))
  else some (featVec L (shScale L))

/-- A uniform positive rescaling by `c` and translation by `t` of every raw
joint position; visibilities are untouched. -/
def transformLandmarks (c : ℝ) (t : ℝ × ℝ) (L : Joint → Landmark) : Joint → Landmark :=
  fun j => { x := c * (L j).x + t.1, y := c * (L j).y + t.2,
             visibility := (L j).visibility }

/-- A concrete landmark configuration (all visibilities 1): hips at
`(-1, 0)` and `(1, 0)`, both shoulders at `(0, 1/2)`, knees and ankles
below the hips.  Its shoulder–hip scale is `1/2` and its hip–hip distance
is `2`. -/
noncomputable def exLmk : Joint → Landmark
  | .leftShoulder => ⟨0, 1 / 2, 1⟩
  | .rightShoulder => ⟨0, 1 / 2, 1⟩
  | .leftHip => ⟨-1, 0, 1⟩
  | .rightHip => ⟨1, 0, 1⟩
  | .leftKnee => ⟨0, -1, 1⟩
  | .rightKnee => ⟨0, -1, 1⟩
  | .leftAnkle => ⟨0, -2, 1⟩
  | .rightAnkle => ⟨0, -2, 1⟩

/-! ## Main pipeline (`main`, after the video forward pass)

The forward pass over the video (OpenCV + MediaPipe) is an external
collaborator; the pipeline from the collected corpus
(`all_features`, `all_states`) onward is embedded as a pure function. -/

structure ModelParams where
  numStates : ℕ
  numFeatures : ℕ
  logPrior : Fin 2 → ℝ
  logTrans : Fin 2 → Fin 2 → ℝ
  means : Fin 2 → Fin 16 → ℝ
  stds : Fin 2 → Fin 16 → ℝ
  meanLogLikelihood : ℝ
  stdLogLikelihood : ℝ
  thresholdSigma : ℝ

def bucketsOf (features : List (Fin 16 → ℝ)) (states : List (Fin 2)) (s : Fin 2) :
    List (Fin 16 → ℝ) :=
  ((features.zip states).filter (fun p => p.2 == s)).map Prod.fst

noncomputable def logPriorOf (states : List (Fin 2)) : Fin 2 → ℝ :=
  fun s => Real.log ((fit_prior (states.headD 0) s : ℚ) : ℝ)

noncomputable def logTransOf (states : List (Fin 2)) : Fin 2 → Fin 2 → ℝ :=
  fun a b => Real.log ((fit_transitions states a b : ℚ) : ℝ)

/-- The repetitions the exporter iterates over: the segmenter's output, or a
single whole-sequence repetition when the segmenter found none. -/
def usedReps (states : List (Fin 2)) : List (ℕ × ℕ) :=
  let r := segment_reps (states.map Fin.val)
  if r = [] then [(0, states.length - 1)] else r

/-- Per-repetition log-likelihoods: the decoder is run over the slice
`features[start : end + 1]` of every used repetition. -/
noncomputable def repLogLikes (features : List (Fin 16 → ℝ)) (states : List (Fin 2)) :
    List ℝ :=
  (usedReps states).map fun r =>
    (viterbi_loglik ((features.drop r.1).take (r.2 + 1 - r.1))
      (logPriorOf states) (logTransOf states)
      (fit_gaussians (bucketsOf features states)).1
      (fit_gaussians (bucketsOf features states)).2).2

noncomputable def trainMain (features : List (Fin 16 → ℝ)) (states : List (Fin 2)) :
    Except String ModelParams :=
  if features.length = 0 then .error "No usable frames extracted."
  else if (bucketsOf features states 0).length = 0 then
    .error "State 0 has no frames; adjust thresholds."
  else if (bucketsOf features states 1).length = 0 then
    .error "State 1 has no frames; adjust thresholds."
  else
    .ok { numStates := 2
          numFeatures := 16
          logPrior := logPriorOf states
          logTrans := logTransOf states
          means := (fit_gaussians (bucketsOf features states)).1
          stds := (fit_gaussians (bucketsOf features states)).2
          meanLogLikelihood :=
            (repLogLikes features states).sum / (repLogLikes features states).length
          stdLogLikelihood :=
            if 1 < (repLogLikes features states).length
            then npStd (repLogLikes features states) else 1
          thresholdSigma := 2 }

/-! ## Lemmas about the segmenter scans -/

theorem scanWhile_le (l : List ℕ) (p : ℕ → Bool) (i : ℕ) : i ≤ scanWhile l p i :=
  Nat.le_add_right _ _

theorem getD_drop_add (l : List ℕ) (i k : ℕ) :
    (l.drop i).getD k 0 = l.getD (i + k) 0 := by
  simp [List.getD_eq_getElem?_getD, List.getElem?_drop]

theorem takeWhile_stop (p : ℕ → Bool) :
    ∀ l : List ℕ, (l.takeWhile p).length < l.length →
      p (l.getD (l.takeWhile p).length 0) = false := by
  intro l
  induction l with
  | nil => simp
  | cons x xs ih =>
    by_cases hx : p x
    · rw [List.takeWhile_cons_of_pos hx]
      intro h
      simpa using ih (by simpa using h)
    · rw [List.takeWhile_cons_of_neg hx]
      intro _
      simpa using hx

theorem scanWhile_stop (l : List ℕ) (p : ℕ → Bool) (i : ℕ)
    (h : scanWhile l p i < l.length) :
    p (l.getD (scanWhile l p i) 0) = false := by
  have hd : ((l.drop i).takeWhile p).length < (l.drop i).length := by
    rw [List.length_drop]
    unfold scanWhile at h
    omega
  have := takeWhile_stop p (l.drop i) hd
  rwa [getD_drop_add] at this

theorem scanWhile_advance (l : List ℕ) (p : ℕ → Bool) (i : ℕ)
    (hi : i < l.length) (hp : p (l.getD i 0) = true) : i < scanWhile l p i := by
  unfold scanWhile
  rw [List.drop_eq_getElem_cons hi, List.takeWhile_cons_of_pos
    (by rwa [List.getD_eq_getElem l 0 hi] at hp)]
  simp

/-- Claim C1: on the label sequence `[0,0,1,1,1,0,0,0,1,1,0]`
(0 = Extended, 1 = Flexed) the Rep Segmenter returns exactly the two
repetitions `(0,5)` and `(5,10)`, in that order. -/
theorem segment_reps_concrete_case :
    segment_reps [0, 0, 1, 1, 1, 0, 0, 0, 1, 1, 0] = [(0, 5), (5, 10)] := by
  decide

/-- Claim C10: for a binary label sequence, whenever the extended-run scan
exits with the cursor still inside the sequence, the label under the cursor
is Flexed, so the flexed-run scan advances at least one step (the
`saw_down` flag is set on its first iteration and the abandon-cycle branch
cannot fire). -/
theorem flexed_run_always_entered (l : List ℕ) (hbin : ∀ x ∈ l, x = 0 ∨ x = 1)
    (i : ℕ)
    (h2 : scanWhile l (fun x => x == 0) (scanWhile l (fun x => x != 0) i) < l.length) :
    l.getD (scanWhile l (fun x => x == 0) (scanWhile l (fun x => x != 0) i)) 0 = 1 ∧
    scanWhile l (fun x => x == 0) (scanWhile l (fun x => x != 0) i) <
      scanWhile l (fun x => x == 1)
        (scanWhile l (fun x => x == 0) (scanWhile l (fun x => x != 0) i)) := by
  set i2 := scanWhile l (fun x => x == 0) (scanWhile l (fun x => x != 0) i) with hi2
  have hex := scanWhile_stop l (fun x => x == 0) (scanWhile l (fun x => x != 0) i) h2
  rw [← hi2] at hex
  have hmem : l.getD i2 0 ∈ l := by
    rw [List.getD_eq_getElem l 0 h2]
    exact List.getElem_mem h2
  have hone : l.getD i2 0 = 1 := by
    rcases hbin _ hmem with h0 | h1
    · rw [h0] at hex
      simp at hex
    · exact h1
  refine ⟨hone, scanWhile_advance l (fun x => x == 1) i2 h2 ?_⟩
  rw [hone]
  rfl

theorem flexed_run_always_entered_check :
    ([1, 0, 1, 0] : List ℕ).getD
        (scanWhile [1, 0, 1, 0] (fun x => x == 0)
          (scanWhile [1, 0, 1, 0] (fun x => x != 0) 0)) 0 = 1 ∧
      scanWhile [1, 0, 1, 0] (fun x => x == 0)
          (scanWhile [1, 0, 1, 0] (fun x => x != 0) 0) <
        scanWhile [1, 0, 1, 0] (fun x => x == 1)
          (scanWhile [1, 0, 1, 0] (fun x => x == 0)
            (scanWhile [1, 0, 1, 0] (fun x => x != 0) 0)) :=
  flexed_run_always_entered [1, 0, 1, 0] (by decide) 0 (by decide)

/-! ## Lemmas for the ordering of the emitted repetitions -/

theorem segRepsAux_ordered (l : List ℕ) :
    ∀ fuel i : ℕ,
      (∀ r ∈ segRepsAux l fuel i, i ≤ r.1 ∧ r.1 < r.2) ∧
        List.Chain' (fun a b => a.2 ≤ b.1) (segRepsAux l fuel i) := by
  intro fuel
  induction fuel with
  | zero => simp [segRepsAux]
  | succ f ih =>
    intro i
    rw [segRepsAux]
    simp only []
    split_ifs with h1 h2 h3 h4 h5
    · simp
    · simp
    · simp
    · simp
    · constructor
      · intro r hr
        rcases List.mem_cons.mp hr with hr | hr
        · subst hr
          have ha : i ≤ scanWhile l (fun x => x != 0) i := scanWhile_le _ _ _
          have hb : scanWhile l (fun x => x != 0) i ≤
              scanWhile l (fun x => x == 0) (scanWhile l (fun x => x != 0) i) :=
            scanWhile_le _ _ _
          have hc := not_le.mp h4
          exact ⟨ha, by omega⟩
        · have := (ih _).1 r hr
          have ha : i ≤ scanWhile l (fun x => x != 0) i := scanWhile_le _ _ _
          have hb : scanWhile l (fun x => x != 0) i ≤
              scanWhile l (fun x => x == 0) (scanWhile l (fun x => x != 0) i) :=
            scanWhile_le _ _ _
          have hc := not_le.mp h4
          exact ⟨by omega, this.2⟩
      · rw [List.chain'_cons']
        refine ⟨fun y hy => ?_, (ih _).2⟩
        have hmem := List.mem_of_mem_head? hy
        exact ((ih _).1 y hmem).1
    · simp


/-- Claim C4: for every binary label sequence, the repetitions returned by
the Rep Segmenter are non-overlapping index intervals listed in the order
they occur: every repetition satisfies `start < end`, and each repetition's
end is at most the next repetition's start. -/
theorem segment_reps_ordered (l : List ℕ) (hbin : ∀ x ∈ l, x = 0 ∨ x = 1) :
    List.Forall (fun r : ℕ × ℕ => r.1 < r.2) (segment_reps l) ∧
      List.Chain' (fun a b : ℕ × ℕ => a.2 ≤ b.1) (segment_reps l) := by
  have h := segRepsAux_ordered l l.length 0
  refine ⟨?_, h.2⟩
  rw [List.forall_iff_forall_mem]
  exact fun r hr => (h.1 r hr).2

theorem segment_reps_ordered_check :
    List.Forall (fun r : ℕ × ℕ => r.1 < r.2) (segment_reps [0, 1, 0]) ∧
      List.Chain' (fun a b : ℕ × ℕ => a.2 ≤ b.1) (segment_reps [0, 1, 0]) :=
  segment_reps_ordered [0, 1, 0] (by decide)

/-- Claim C5: for every label sequence (including the empty and length-1
sequences) the fitted transition matrix is row-stochastic with strictly
positive entries: each row sums exactly to 1 and every entry is
positive. -/
theorem fit_transitions_row_stochastic (state_seq : List (Fin 2)) :
    (∀ a : Fin 2,
        fit_transitions state_seq a 0 + fit_transitions state_seq a 1 = 1) ∧
      ∀ a b : Fin 2, 0 < fit_transitions state_seq a b := by
  have hpos : ∀ a b : Fin 2, 0 < transCounts state_seq a b := by
    intro a b
    unfold transCounts
    positivity
  constructor
  · intro a
    unfold fit_transitions
    rw [div_add_div_same, div_self]
    have h0 := hpos a 0
    have h1 := hpos a 1
    positivity
  · intro a b
    exact div_pos (hpos a b) (by have h0 := hpos a 0; have h1 := hpos a 1; positivity)

/-- Claim C9: whenever both label buckets are non-empty, every component of
both fitted standard-deviation vectors is at least `1e-6`. -/
theorem fit_gaussians_std_floor (features_per_state : Fin 2 → List (Fin 16 → ℝ))
    (h0 : features_per_state 0 ≠ []) (h1 : features_per_state 1 ≠ []) :
    ∀ (s : Fin 2) (d : Fin 16),
      (1e-6 : ℝ) ≤ (fit_gaussians features_per_state).2 s d := by
  intro s d
  show (1e-6 : ℝ) ≤
    (if npStd ((features_per_state s).map (fun v => v d)) < 1e-6 then (1e-6 : ℝ)
     else npStd ((features_per_state s).map (fun v => v d)))
  split_ifs with h
  · exact le_refl _
  · exact le_of_not_lt h

theorem fit_gaussians_std_floor_check :
    ((fun _ : Fin 2 => [fun _ : Fin 16 => (0 : ℝ)]) 0 ≠ []) ∧
      (1e-6 : ℝ) ≤
        (fit_gaussians (fun _ : Fin 2 => [fun _ : Fin 16 => (0 : ℝ)])).2 0 0 :=
  ⟨by simp, fit_gaussians_std_floor _ (by simp) (by simp) 0 0⟩

/-! ## The Viterbi tie-break under fully symmetric parameters -/

theorem argmax2_eq_zero {c : Fin 2 → ℝ} (h : c 0 = c 1) : argmax2 c = 0 := by
  unfold argmax2
  rw [if_neg]
  rw [h]
  exact lt_irrefl _

theorem log_emit_symm (seq : List (Fin 16 → ℝ)) (means stds : Fin 2 → Fin 16 → ℝ)
    (hm : means 0 = means 1) (hs : stds 0 = stds 1) (t : ℕ) :
    log_emit seq means stds t 0 = log_emit seq means stds t 1 := by
  unfold log_emit
  rw [hm, hs]

theorem vitDP_symm (seq : List (Fin 16 → ℝ)) (lgp : Fin 2 → ℝ)
    (lgt : Fin 2 → Fin 2 → ℝ) (means stds : Fin 2 → Fin 16 → ℝ)
    (hp : lgp 0 = lgp 1) (ht : ∀ a b a' b' : Fin 2, lgt a b = lgt a' b')
    (hm : means 0 = means 1) (hs : stds 0 = stds 1) :
    ∀ t : ℕ, vitDP seq lgp lgt means stds t 0 = vitDP seq lgp lgt means stds t 1 := by
  intro t
  induction t with
  | zero =>
    show lgp 0 + log_emit seq means stds 0 0 = lgp 1 + log_emit seq means stds 0 1
    rw [hp, log_emit_symm seq means stds hm hs 0]
  | succ t ih =>
    have e0 : argmax2 (fun p => vitDP seq lgp lgt means stds t p + lgt p 0) = 0 :=
      argmax2_eq_zero (by
        show vitDP seq lgp lgt means stds t 0 + lgt 0 0 =
          vitDP seq lgp lgt means stds t 1 + lgt 1 0
        rw [ih, ht 1 0 0 0])
    have e1 : argmax2 (fun p => vitDP seq lgp lgt means stds t p + lgt p 1) = 0 :=
      argmax2_eq_zero (by
        show vitDP seq lgp lgt means stds t 0 + lgt 0 1 =
          vitDP seq lgp lgt means stds t 1 + lgt 1 1
        rw [ih, ht 1 1 0 1])
    show (fun p => vitDP seq lgp lgt means stds t p + lgt p 0)
          (argmax2 (fun p => vitDP seq lgp lgt means stds t p + lgt p 0))
        + log_emit seq means stds (t + 1) 0 =
      (fun p => vitDP seq lgp lgt means stds t p + lgt p 1)
          (argmax2 (fun p => vitDP seq lgp lgt means stds t p + lgt p 1))
        + log_emit seq means stds (t + 1) 1
    rw [e0, e1]
    show vitDP seq lgp lgt means stds t 0 + lgt 0 0 + log_emit seq means stds (t + 1) 0 =
      vitDP seq lgp lgt means stds t 0 + lgt 0 1 + log_emit seq means stds (t + 1) 1
    rw [ht 0 0 0 1, log_emit_symm seq means stds hm hs (t + 1)]

theorem vitBack_symm (seq : List (Fin 16 → ℝ)) (lgp : Fin 2 → ℝ)
    (lgt : Fin 2 → Fin 2 → ℝ) (means stds : Fin 2 → Fin 16 → ℝ)
    (hp : lgp 0 = lgp 1) (ht : ∀ a b a' b' : Fin 2, lgt a b = lgt a' b')
    (hm : means 0 = means 1) (hs : stds 0 = stds 1) :
    ∀ (t : ℕ) (s : Fin 2), vitBack seq lgp lgt means stds t s = 0 := by
  intro t s
  cases t with
  | zero => rfl
  | succ t =>
    show argmax2 (fun p => vitDP seq lgp lgt means stds t p + lgt p s) = 0
    exact argmax2_eq_zero (by
      show vitDP seq lgp lgt means stds t 0 + lgt 0 s =
        vitDP seq lgp lgt means stds t 1 + lgt 1 s
      rw [vitDP_symm seq lgp lgt means stds hp ht hm hs t, ht 1 s 0 s])

theorem vitState_symm (seq : List (Fin 16 → ℝ)) (lgp : Fin 2 → ℝ)
    (lgt : Fin 2 → Fin 2 → ℝ) (means stds : Fin 2 → Fin 16 → ℝ)
    (hp : lgp 0 = lgp 1) (ht : ∀ a b a' b' : Fin 2, lgt a b = lgt a' b')
    (hm : means 0 = means 1) (hs : stds 0 = stds 1) (T : ℕ) :
    ∀ k : ℕ, vitState seq lgp lgt means stds T k = 0 := by
  intro k
  induction k with
  | zero => exact argmax2_eq_zero (vitDP_symm seq lgp lgt means stds hp ht hm hs (T - 1))
  | succ k ih =>
    show vitBack seq lgp lgt means stds (T - 1 - k)
      (vitState seq lgp lgt means stds T k) = 0
    rw [ih, vitBack_symm seq lgp lgt means stds hp ht hm hs (T - 1 - k) 0]

/-- Claim C2: for every non-empty feature sub-sequence, if the log-prior is
uniform over the two states, all transition log-probabilities are equal,
and the two states have identical emission means and standard deviations,
then the Viterbi decoder returns the all-zeros state path (the
first-occurrence argmax tie-break always selects state 0). -/
theorem viterbi_symmetric_path_all_zero (seq : List (Fin 16 → ℝ)) (lgp : Fin 2 → ℝ)
    (lgt : Fin 2 → Fin 2 → ℝ) (means stds : Fin 2 → Fin 16 → ℝ)
    (hT : seq ≠ []) (hp : lgp 0 = lgp 1)
    (ht : ∀ a b a' b' : Fin 2, lgt a b = lgt a' b')
    (hm : means 0 = means 1) (hs : stds 0 = stds 1) :
    (viterbi_loglik seq lgp lgt means stds).1 =
      List.replicate seq.length (0 : Fin 2) := by
  show (List.range seq.length).map
      (fun t => vitState seq lgp lgt means stds seq.length (seq.length - 1 - t)) =
    List.replicate seq.length (0 : Fin 2)
  rw [List.map_congr_left
    (fun t _ => vitState_symm seq lgp lgt means stds hp ht hm hs seq.length
      (seq.length - 1 - t))]
  rw [List.map_const', List.length_range]

theorem viterbi_symmetric_path_all_zero_check :
    ([fun _ : Fin 16 => (0 : ℝ)] : List (Fin 16 → ℝ)) ≠ [] ∧
      (viterbi_loglik [fun _ : Fin 16 => (0 : ℝ)] (fun _ => 0) (fun _ _ => 0)
          (fun _ _ => 0) (fun _ _ => 1)).1 = List.replicate 1 (0 : Fin 2) :=
  ⟨by simp,
   viterbi_symmetric_path_all_zero [fun _ : Fin 16 => (0 : ℝ)] (fun _ => 0)
     (fun _ _ => 0) (fun _ _ => 0) (fun _ _ => 1) (by simp) rfl
     (fun _ _ _ _ => rfl) rfl rfl⟩

/-! ## Error handling and the exporter stage of `main` -/

/-- Claim C6: with an empty corpus, or an empty label bucket, the fitting
run aborts with a diagnostic identifying the failed condition and no model
is emitted. -/
theorem trainMain_insufficient_data (features : List (Fin 16 → ℝ))
    (states : List (Fin 2)) :
    (features = [] →
      trainMain features states = .error "No usable frames extracted.") ∧
    (features ≠ [] → bucketsOf features states 0 = [] →
      trainMain features states = .error "State 0 has no frames; adjust thresholds.") ∧
    (features ≠ [] → bucketsOf features states 0 ≠ [] →
      bucketsOf features states 1 = [] →
      trainMain features states = .error "State 1 has no frames; adjust thresholds.") ∧
    ((features = [] ∨ bucketsOf features states 0 = [] ∨
        bucketsOf features states 1 = []) →
      ∀ m : ModelParams, trainMain features states ≠ .ok m) := by
  have hA : features = [] →
      trainMain features states = .error "No usable frames extracted." := by
    intro h
    subst h
    rfl
  have hB : features ≠ [] → bucketsOf features states 0 = [] →
      trainMain features states = .error "State 0 has no frames; adjust thresholds." := by
    intro h1 h2
    unfold trainMain
    rw [if_neg (by simpa using h1), if_pos (by simp [h2])]
  have hC : features ≠ [] → bucketsOf features states 0 ≠ [] →
      bucketsOf features states 1 = [] →
      trainMain features states = .error "State 1 has no frames; adjust thresholds." := by
    intro h1 h2 h3
    unfold trainMain
    rw [if_neg (by simpa using h1), if_neg (by simpa using h2), if_pos (by simp [h3])]
  refine ⟨hA, hB, hC, ?_⟩
  intro hdisj m
  rcases hdisj with h | h | h
  · rw [hA h]
    exact fun hc => Except.noConfusion hc
  · by_cases hf : features = []
    · rw [hA hf]
      exact fun hc => Except.noConfusion hc
    · rw [hB hf h]
      exact fun hc => Except.noConfusion hc
  · by_cases hf : features = []
    · rw [hA hf]
      exact fun hc => Except.noConfusion hc
    · by_cases hb0 : bucketsOf features states 0 = []
      · rw [hB hf hb0]
        exact fun hc => Except.noConfusion hc
      · rw [hC hf hb0 h]
        exact fun hc => Except.noConfusion hc

theorem trainMain_insufficient_data_check :
    trainMain [] [] = .error "No usable frames extracted." :=
  (trainMain_insufficient_data [] []).1 rfl

/-- Claim C7: when the segmenter finds no repetitions on a non-empty corpus
the run still succeeds, the whole sequence is treated as the single
repetition `(0, T - 1)`, and the decoder is run exactly once, on the whole
feature sequence. -/
theorem trainMain_no_reps_fallback (features : List (Fin 16 → ℝ))
    (states : List (Fin 2)) (hlen : states.length = features.length)
    (hne : features ≠ [])
    (hb0 : bucketsOf features states 0 ≠ [])
    (hb1 : bucketsOf features states 1 ≠ [])
    (hseg : segment_reps (states.map Fin.val) = []) :
    usedReps states = [(0, states.length - 1)] ∧
    repLogLikes features states =
      [(viterbi_loglik features (logPriorOf states) (logTransOf states)
          (fit_gaussians (bucketsOf features states)).1
          (fit_gaussians (bucketsOf features states)).2).2] ∧
    ∃ m : ModelParams, trainMain features states = .ok m := by
  have hflen : features.length ≠ 0 := fun h => hne (List.length_eq_zero.mp h)
  have hur : usedReps states = [(0, states.length - 1)] := by
    simp [usedReps, hseg]
  refine ⟨hur, ?_, ?_⟩
  · rw [repLogLikes, hur]
    simp only [List.map_cons, List.map_nil]
    have hslice : (features.drop 0).take (states.length - 1 + 1 - 0) = features := by
      rw [List.drop_zero]
      have h : states.length - 1 + 1 - 0 = features.length := by omega
      rw [h, List.take_length]
    rw [hslice]
  · unfold trainMain
    rw [if_neg hflen, if_neg (by simpa using hb0), if_neg (by simpa using hb1)]
    exact ⟨_, rfl⟩

theorem trainMain_no_reps_fallback_check :
    usedReps [1, 0] = [(0, 1)] ∧
      ∃ m : ModelParams,
        trainMain [fun _ : Fin 16 => (0 : ℝ), fun _ : Fin 16 => (1 : ℝ)] [1, 0] = .ok m := by
  have h := trainMain_no_reps_fallback
    [fun _ : Fin 16 => (0 : ℝ), fun _ : Fin 16 => (1 : ℝ)] [1, 0]
    rfl (by simp) (by simp [bucketsOf]) (by simp [bucketsOf]) (by decide)
  exact ⟨h.1, h.2.2⟩

/-- Claim C8: in the exported model, `stdLogLikelihood` is the population
standard deviation of the per-repetition log-likelihoods when at least two
repetitions exist, and is exactly 1.0 otherwise. -/
theorem trainMain_std_loglik (features : List (Fin 16 → ℝ)) (states : List (Fin 2))
    (h1 : features.length ≠ 0)
    (h2 : (bucketsOf features states 0).length ≠ 0)
    (h3 : (bucketsOf features states 1).length ≠ 0) :
    ∃ m : ModelParams, trainMain features states = .ok m ∧
      (2 ≤ (repLogLikes features states).length →
        m.stdLogLikelihood = npStd (repLogLikes features states)) ∧
      ((repLogLikes features states).length < 2 → m.stdLogLikelihood = 1) := by
  unfold trainMain
  rw [if_neg h1, if_neg h2, if_neg h3]
  refine ⟨_, rfl, ?_, ?_⟩
  · intro h
    show (if 1 < (repLogLikes features states).length
      then npStd (repLogLikes features states) else 1) =
        npStd (repLogLikes features states)
    rw [if_pos (by omega)]
  · intro h
    show (if 1 < (repLogLikes features states).length
      then npStd (repLogLikes features states) else 1) = 1
    rw [if_neg (by omega)]

theorem trainMain_std_loglik_check :
    ∃ m : ModelParams,
      trainMain [fun _ : Fin 16 => (0 : ℝ), fun _ : Fin 16 => (1 : ℝ)] [0, 1] = .ok m ∧
        (2 ≤ (repLogLikes [fun _ : Fin 16 => (0 : ℝ), fun _ : Fin 16 => (1 : ℝ)]
            [0, 1]).length →
          m.stdLogLikelihood =
            npStd (repLogLikes [fun _ : Fin 16 => (0 : ℝ), fun _ : Fin 16 => (1 : ℝ)]
              [0, 1])) ∧
        ((repLogLikes [fun _ : Fin 16 => (0 : ℝ), fun _ : Fin 16 => (1 : ℝ)]
            [0, 1]).length < 2 → m.stdLogLikelihood = 1) :=
  trainMain_std_loglik [fun _ : Fin 16 => (0 : ℝ), fun _ : Fin 16 => (1 : ℝ)] [0, 1]
    (by simp) (by simp [bucketsOf]) (by simp [bucketsOf])

/-! ## Transform behaviour of the Feature Normalizer -/

theorem pt_transform (c : ℝ) (t : ℝ × ℝ) (L : Joint → Landmark) (j : Joint) :
    pt (transformLandmarks c t L) j =
      (c * (pt L j).1 + t.1, c * (pt L j).2 + t.2) := rfl

theorem hip_center_transform (c : ℝ) (t : ℝ × ℝ) (L : Joint → Landmark) :
    hip_center (transformLandmarks c t L) =
      (c * (hip_center L).1 + t.1, c * (hip_center L).2 + t.2) := by
  unfold hip_center
  simp only [pt_transform, Prod.mk.injEq]
  exact ⟨by ring, by ring⟩

theorem shoulder_center_transform (c : ℝ) (t : ℝ × ℝ) (L : Joint → Landmark) :
    shoulder_center (transformLandmarks c t L) =
      (c * (shoulder_center L).1 + t.1, c * (shoulder_center L).2 + t.2) := by
  unfold shoulder_center
  simp only [pt_transform, Prod.mk.injEq]
  exact ⟨by ring, by ring⟩

theorem dist_scale (c : ℝ) (hc : 0 ≤ c) (t : ℝ × ℝ) (a b : ℝ × ℝ) :
    dist (c * a.1 + t.1, c * a.2 + t.2) (c * b.1 + t.1, c * b.2 + t.2) =
      c * dist a b := by
  unfold dist
  rw [show (c * a.1 + t.1 - (c * b.1 + t.1)) ^ 2 + (c * a.2 + t.2 - (c * b.2 + t.2)) ^ 2
      = c ^ 2 * ((a.1 - b.1) ^ 2 + (a.2 - b.2) ^ 2) by ring]
  rw [Real.sqrt_mul (by positivity), Real.sqrt_sq hc]

theorem shScale_transform (c : ℝ) (hc : 0 ≤ c) (t : ℝ × ℝ) (L : Joint → Landmark) :
    shScale (transformLandmarks c t L) = c * shScale L := by
  unfold shScale
  rw [hip_center_transform, shoulder_center_transform]
  exact dist_scale c hc t _ _

theorem hipDist_transform (c : ℝ) (hc : 0 ≤ c) (t : ℝ × ℝ) (L : Joint → Landmark) :
    hipDist (transformLandmarks c t L) = c * hipDist L := by
  unfold hipDist
  rw [pt_transform, pt_transform]
  exact dist_scale c hc t _ _

theorem norm_pt_transform (c : ℝ) (hc : c ≠ 0) (t : ℝ × ℝ) (L : Joint → Landmark)
    (s : ℝ) (p : ℝ × ℝ) :
    norm_pt (transformLandmarks c t L) (c * s) (c * p.1 + t.1, c * p.2 + t.2) =
      norm_pt L s p := by
  unfold norm_pt
  rw [hip_center_transform]
  simp only [Prod.mk.injEq]
  constructor
  · rw [show c * p.1 + t.1 - (c * (hip_center L).1 + t.1)
        = c * (p.1 - (hip_center L).1) by ring]
    exact mul_div_mul_left _ _ hc
  · rw [show c * p.2 + t.2 - (c * (hip_center L).2 + t.2)
        = c * (p.2 - (hip_center L).2) by ring]
    exact mul_div_mul_left _ _ hc

theorem featVec_transform (c : ℝ) (hc : c ≠ 0) (t : ℝ × ℝ) (L : Joint → Landmark)
    (s : ℝ) :
    featVec (transformLandmarks c t L) (c * s) = featVec L s := by
  unfold featVec
  have h : ∀ j : Joint,
      norm_pt (transformLandmarks c t L) (c * s) (pt (transformLandmarks c t L) j) =
        norm_pt L s (pt L j) := fun j => by
    rw [pt_transform]
    exact norm_pt_transform c hc t L s (pt L j)
  simp only [h]

/-- Claim C3 (amended): for raw joints with all visibilities above the 0.3
threshold, under any translation and positive uniform scale the Feature
Normalizer returns the same output — provided the transform does not change
the outcome of either degenerate-scale test (shoulder–hip distance below
`1e-3`, and the fallback hip–hip distance below `1e-3`).  Scales that move
a distance across the `1e-3` threshold switch the normalization branch and
the outputs differ (see the counterexample). -/
theorem extract_feature_vector_transform_invariant (L : Joint → Landmark) (c : ℝ)
    (t : ℝ × ℝ) (hc : 0 < c)
    (hvis : ∀ j : Joint, ¬(L j).visibility < 0.3)
    (hb1 : shScale (transformLandmarks c t L) < 1e-3 ↔ shScale L < 1e-3)
    (hb2 : hipDist (transformLandmarks c t L) < 1e-3 ↔ hipDist L < 1e-3) :
    extract_feature_vector (transformLandmarks c t L) = extract_feature_vector L := by
  have gate : ∀ M : Joint → Landmark, (∀ j : Joint, ¬(M j).visibility < 0.3) →
      extract_feature_vector M =
        if shScale M < 1e-3 then
          (if hipDist M < 1e-3 then none else some (featVec M (hipDist M)))
        else some (featVec M (shScale M)) := by
    intro M hM
    unfold extract_feature_vector
    rw [if_neg (by
      simp only [not_or]
      exact ⟨hM _, hM _, hM _, hM _, hM _, hM _, hM _, hM _⟩)]
  rw [gate (transformLandmarks c t L) (fun j => hvis j), gate L hvis]
  by_cases hsh : shScale L < 1e-3
  · rw [if_pos (hb1.mpr hsh), if_pos hsh]
    by_cases hhd : hipDist L < 1e-3
    · rw [if_pos (hb2.mpr hhd), if_pos hhd]
    · rw [if_neg (fun h => hhd (hb2.mp h)), if_neg hhd,
        hipDist_transform c hc.le t L]
      exact congrArg some (featVec_transform c hc.ne' t L (hipDist L))
  · rw [if_neg (fun h => hsh (hb1.mp h)), if_neg hsh, shScale_transform c hc.le t L]
    exact congrArg some (featVec_transform c hc.ne' t L (shScale L))

theorem extract_feature_vector_transform_invariant_check :
    extract_feature_vector (transformLandmarks 1 (0, 0) exLmk) =
      extract_feature_vector exLmk := by
  have htr : transformLandmarks 1 (0, 0) exLmk = exLmk := by
    funext j
    simp [transformLandmarks]
  exact extract_feature_vector_transform_invariant exLmk 1 (0, 0) (by norm_num)
    (fun j => by cases j <;> norm_num [exLmk])
    (by rw [htr]) (by rw [htr])

/-- Claim C3 counterexample: all visibilities of `exLmk` are above the 0.3
threshold and the scale factor `1/1000` is positive, yet the Feature
Normalizer's outputs before and after the transform differ: the original
input normalizes by the shoulder–hip scale `1/2`, while the scaled input's
shoulder–hip scale `1/2000` falls below the `1e-3` cutoff so the fallback
hip distance `1/500` is used instead, changing the output vector. -/
theorem extract_feature_vector_not_scale_invariant :
    (0 : ℝ) < 1 / 1000 ∧
      extract_feature_vector (transformLandmarks (1 / 1000) (0, 0) exLmk) ≠
        extract_feature_vector exLmk := by
  refine ⟨by norm_num, ?_⟩
  have h1 : hip_center exLmk = (0, 0) := by
    unfold hip_center pt
    norm_num [exLmk, Prod.mk.injEq]
  have h2 : shoulder_center exLmk = (0, 1 / 2) := by
    unfold shoulder_center pt
    norm_num [exLmk, Prod.mk.injEq]
  have hsc : shScale exLmk = 1 / 2 := by
    unfold shScale
    rw [h1, h2]
    unfold dist
    show Real.sqrt (((0 : ℝ) - 0) ^ 2 + ((0 : ℝ) - 1 / 2) ^ 2) = 1 / 2
    rw [show ((0 : ℝ) - 0) ^ 2 + ((0 : ℝ) - 1 / 2) ^ 2 = (1 / 2 : ℝ) ^ 2 by norm_num]
    exact Real.sqrt_sq (by norm_num)
  have g1 : hip_center (transformLandmarks (1 / 1000) (0, 0) exLmk) = (0, 0) := by
    unfold hip_center pt transformLandmarks
    norm_num [exLmk, Prod.mk.injEq]
  have g2 : shoulder_center (transformLandmarks (1 / 1000) (0, 0) exLmk) =
      (0, 1 / 2000) := by
    unfold shoulder_center pt transformLandmarks
    norm_num [exLmk, Prod.mk.injEq]
  have gsc : shScale (transformLandmarks (1 / 1000) (0, 0) exLmk) = 1 / 2000 := by
    unfold shScale
    rw [g1, g2]
    unfold dist
    show Real.sqrt (((0 : ℝ) - 0) ^ 2 + ((0 : ℝ) - 1 / 2000) ^ 2) = 1 / 2000
    rw [show ((0 : ℝ) - 0) ^ 2 + ((0 : ℝ) - 1 / 2000) ^ 2 = (1 / 2000 : ℝ) ^ 2 by
      norm_num]
    exact Real.sqrt_sq (by norm_num)
  have ghd : hipDist (transformLandmarks (1 / 1000) (0, 0) exLmk) = 1 / 500 := by
    unfold hipDist pt transformLandmarks dist
    norm_num [exLmk]
    rw [show (250000 : ℝ) = (500 : ℝ) ^ 2 by norm_num, Real.sqrt_sq (by norm_num)]
    norm_num
  have hexL : extract_feature_vector exLmk = some (featVec exLmk (1 / 2)) := by
    unfold extract_feature_vector
    rw [if_neg (by norm_num [exLmk]), if_neg (by rw [hsc]; norm_num), hsc]
  have hexT : extract_feature_vector (transformLandmarks (1 / 1000) (0, 0) exLmk) =
      some (featVec (transformLandmarks (1 / 1000) (0, 0) exLmk) (1 / 500)) := by
    unfold extract_feature_vector
    rw [if_neg (by norm_num [transformLandmarks, exLmk]),
      if_pos (by rw [gsc]; norm_num), if_neg (by rw [ghd]; norm_num), ghd]
  have v1 : featVec exLmk (1 / 2) 1 = 1 := by
    simp only [featVec, Matrix.cons_val_one, Matrix.head_cons]
    unfold norm_pt
    rw [h1]
    unfold pt
    norm_num [exLmk]
  have v2 : featVec (transformLandmarks (1 / 1000) (0, 0) exLmk) (1 / 500) 1 =
      1 / 4 := by
    simp only [featVec, Matrix.cons_val_one, Matrix.head_cons]
    unfold norm_pt
    rw [g1]
    unfold pt transformLandmarks
    norm_num [exLmk]
  rw [hexT, hexL]
  intro hcontra
  have h := congrFun (Option.some.inj hcontra) 1
  rw [v2, v1] at h
  norm_num at h

/-! ## The fuel given to `segRepsAux` is always sufficient

Every outer iteration that recurses advances the cursor by at least two, so
any fuel with `l.length - 1 ≤ 2 * fuel + i` computes the loop's fixpoint;
in particular `segment_reps` is unchanged by adding fuel, i.e. the fuel
parameter is not observable. -/

theorem segRepsAux_fuel_irrelevant (l : List ℕ) :
    ∀ fuel i : ℕ, l.length - 1 ≤ 2 * fuel + i →
      segRepsAux l (fuel + 1) i = segRepsAux l fuel i := by
  intro fuel
  induction fuel with
  | zero =>
    intro i h
    rw [segRepsAux, segRepsAux]
    rw [if_neg (by omega)]
  | succ f ih =>
    intro i h
    rw [segRepsAux]
    conv_rhs => rw [segRepsAux]
    simp only []
    split_ifs with h1 h2 h3 h4 h5
    · rfl
    · rfl
    · rfl
    · rfl
    · have ha : i ≤ scanWhile l (fun x => x != 0) i := scanWhile_le _ _ _
      have hb : scanWhile l (fun x => x != 0) i <
          scanWhile l (fun x => x == 0) (scanWhile l (fun x => x != 0) i) := by
        apply scanWhile_advance
        · omega
        · have hstop := scanWhile_stop l (fun x => x != 0) i (by omega)
          have h0 : l.getD (scanWhile l (fun x => x != 0) i) 0 = 0 :=
            bne_eq_false_iff_eq.mp hstop
          show (l.getD (scanWhile l (fun x => x != 0) i) 0 == 0) = true
          rw [h0]
          rfl
      have hc := not_le.mp h4
      rw [ih _ (by omega)]
    · rfl

theorem segment_reps_fuel_sufficient (l : List ℕ) (k : ℕ) :
    segRepsAux l (l.length + k) 0 = segment_reps l := by
  induction k with
  | zero => rfl
  | succ k ih =>
    rw [show l.length + (k + 1) = l.length + k + 1 from rfl,
      segRepsAux_fuel_irrelevant l (l.length + k) 0 (by omega), ih]
